import Mathlib

set_option maxHeartbeats 1000000

/-!
Verification of the apphorde/npm-registry server (src/index.mjs) against its
natural-language specification.  The development shallowly embeds the pure
content of the request handler and its helper functions:

* the three validator predicates (src/index.mjs lines 211-221) as decidable
  Boolean functions on strings;
* JavaScript's default `Array.prototype.sort` (lexicographic comparison of
  UTF-16 code units) used at line 133;
* Node's `path.parse(...).name` extension stripping used at lines 72 and 131;
* `findDependencies` (lines 189-205), taken as a function of the list of
  module specifiers returned by the external parser (acorn is an external
  collaborator; a `Source` value carries the parser's verdict: `none` when the
  text fails to parse as a module, `some imports` otherwise);
* `generateTarFile` (lines 98-119), whose `JSON.stringify` of the descriptor
  object is modelled structurally by a `Descriptor` record;
* `generateManifest` (lines 121-182), modelling the version listing,
  `dist-tags.latest`, and the two places it can throw (a missing `<v>.mjs`
  file makes `statSync` throw at line 143; an unparseable source makes the
  dependency inference reject at lines 161-163).  The `time` map and the
  `dist.tarball` URLs are derived per-version fields not referenced by any
  verified property and are not carried in the result;
* the request handler (lines 27-96) as a function from a store state and the
  decoded, `/`-split path segments to an outcome plus the new store state.
  Exceptions that escape the async handler are modelled by a `crash` outcome.

File-system state is explicit: the data directory is an association list from
(scope, name) to the folder's regular files, and the cache directory is an
association list from cache file name to the archive entries written there.
-/

namespace NpmRegistry

/-- lowercase ASCII letter test: the character class `[a-z]` of the validator
regexes in src/index.mjs. -/
def isLowerAlpha (c : Char) : Bool := 'a' ≤ c && c ≤ 'z'

/-- ASCII digit test: the character class `\d` of the version regex. -/
def isDigitCh (c : Char) : Bool := '0' ≤ c && c ≤ '9'

/-- validateScope (src/index.mjs lines 211-213): `scope && /^@[a-z]+$/.test(scope)`.
A falsy (absent or empty) scope fails, otherwise the string must be `@`
followed by one or more lowercase letters. -/
def validateScope (s : String) : Bool :=
  match s.data with
  | [] => false
  | c :: rest => c == '@' && !rest.isEmpty && rest.all isLowerAlpha

/-- validatePackageName (src/index.mjs lines 215-217): `name && /^[a-z-]+$/.test(name)`. -/
def validatePackageName (s : String) : Bool :=
  !s.data.isEmpty && s.data.all (fun c => isLowerAlpha c || c == '-')

/-- consumeDigits drops a (possibly empty) leading run of digits; together with
`consumeNum` it implements the `\d+` pieces of `/^\d+\.\d+\.\d+$/`. -/
def consumeDigits : List Char → List Char
  | [] => []
  | c :: rest => if isDigitCh c then consumeDigits rest else c :: rest

/-- consumeNum consumes `\d+` (at least one digit) and returns the remainder,
or fails when no leading digit is present. -/
def consumeNum : List Char → Option (List Char)
  | [] => none
  | c :: rest => if isDigitCh c then some (consumeDigits rest) else none

/-- validateVersion (src/index.mjs lines 219-221): `version && /^\d+\.\d+\.\d+$/.test(version)`,
three digit runs separated by literal dots, anchored at both ends. -/
def validateVersion (s : String) : Bool :=
  match consumeNum s.data with
  | some ('.' :: r1) =>
    match consumeNum r1 with
    | some ('.' :: r2) =>
      match consumeNum r2 with
      | some [] => true
      | _ => false
    | _ => false
  | _ => false

/-- digitsToNat reads a digit run as a base-10 natural number (specification
side: used to state what numeric version comparison means). -/
def digitsToNat (l : List Char) : Nat :=
  l.foldl (fun a c => 10 * a + (c.toNat - '0'.toNat)) 0

/-- splitOnChar splits a character list at every occurrence of `c`; the model
of JavaScript's `String.prototype.split` with a single-character separator. -/
def splitOnChar (c : Char) : List Char → List (List Char)
  | [] => [[]]
  | x :: rest =>
    if x = c then [] :: splitOnChar c rest
    else
      match splitOnChar c rest with
      | [] => [[x]]
      | p :: ps => (x :: p) :: ps

/-- versionTriple parses `a.b.c` into its three numeric components
(specification side, for stating numeric version ordering). -/
def versionTriple (s : String) : Option (Nat × Nat × Nat) :=
  match splitOnChar '.' s.data with
  | [a, b, c] =>
    if !a.isEmpty && a.all isDigitCh && !b.isEmpty && b.all isDigitCh
        && !c.isEmpty && c.all isDigitCh then
      some (digitsToNat a, digitsToNat b, digitsToNat c)
    else none
  | _ => none

/-- tripleLe is the numeric (component-wise lexicographic) order on parsed
version triples, the order the specification demands for `dist-tags.latest`. -/
def tripleLe (x y : Nat × Nat × Nat) : Bool :=
  if x.1 < y.1 then true
  else if y.1 < x.1 then false
  else if x.2.1 < y.2.1 then true
  else if y.2.1 < x.2.1 then false
  else Nat.ble x.2.2 y.2.2

/-- numericMax picks the maximum of a list of version strings under numeric
three-component comparison (specification side; strings that do not parse as
versions are ignored in favour of the current candidate). -/
def numericMax (l : List String) : Option String :=
  l.foldl
    (fun acc v =>
      match acc with
      | none => some v
      | some w =>
        match versionTriple w, versionTriple v with
        | some tw, some tv => if tripleLe tw tv then some v else some w
        | _, _ => some w)
    none

/-- lexLe is lexicographic comparison of character lists by code point: the
comparison used by JavaScript's default `Array.prototype.sort` on strings
(UTF-16 code-unit order, which agrees with code-point order on these inputs). -/
def lexLe : List Char → List Char → Bool
  | [], _ => true
  | _ :: _, [] => false
  | a :: as, b :: bs => if a < b then true else if b < a then false else lexLe as bs

/-- insertSorted inserts into a lexicographically sorted list of strings. -/
def insertSorted (x : String) : List String → List String
  | [] => [x]
  | y :: ys => if lexLe x.data y.data then x :: y :: ys else y :: insertSorted x ys

/-- jsSort models `Array.prototype.sort()` with no comparator (line 133 of
src/index.mjs): it sorts strings lexicographically by code units. -/
def jsSort (l : List String) : List String := l.foldr insertSorted []

/-- dropThroughDot scans a reversed character list and drops everything up to
and including the first `.`, failing (no extension) when no such dot exists or
when the dot found is the leading character of the original string. -/
def dropThroughDot : List Char → Option (List Char)
  | [] => none
  | c :: rest =>
    if c = '.' then (if rest.isEmpty then none else some rest)
    else dropThroughDot rest

/-- stripExt models Node's `path.parse(s).name` for plain file names: the name
with its last extension removed; a string without an extension (including a
leading-dot name such as `.bashrc`) is returned unchanged. -/
def stripExt (s : String) : String :=
  match dropThroughDot s.data.reverse with
  | some r => ⟨r.reverse⟩
  | none => s

/-- depEntry maps one import specifier to a (dependency name, version tag)
pair, following src/index.mjs lines 195-202: if the specifier minus its first
character contains an `@`, JavaScript's `name.slice(1).split('@')` is
destructured as `[left, right]`, giving `name.charAt(0) + left` and `right`;
otherwise the specifier maps verbatim to `"latest"`.  The fallback arm is
unreachable because a split of a list containing the separator always yields
at least two parts. -/
def depEntry (n : String) : String × String :=
  if '@' ∈ n.data.drop 1 then
    match splitOnChar '@' (n.data.drop 1) with
    | left :: right :: _ => (⟨n.data.take 1 ++ left⟩, ⟨right⟩)
    | _ => (n, "latest")
  else (n, "latest")

/-- startsWithNode tests JavaScript's `name.startsWith("node:")` (src/index.mjs
line 194) by matching the five prefix characters. -/
def startsWithNode (n : String) : Bool :=
  match n.data with
  | 'n' :: 'o' :: 'd' :: 'e' :: ':' :: _ => true
  | _ => false

/-- findDependencies (src/index.mjs lines 189-205) as a function of the import
specifiers collected from the module AST: specifiers with the `node:` platform
prefix are discarded, the rest are mapped through `depEntry`.  The JavaScript
`Object.fromEntries` at line 204 builds an object whose key set is the key set
of this entry list (later entries win on duplicate keys). -/
def findDependencies (imports : List String) : List (String × String) :=
  (imports.filter (fun n => !startsWithNode n)).map depEntry

/-- depEntryClaim transcribes the claim's (and spec's) wording for one import
specifier: a specifier containing an `@` after its first character is split at
that `@`; the name is the first character plus the part before it, the version
tag is the part after it.  Written from the specification's words, to be
compared with `depEntry`, which is written from the code. -/
def depEntryClaim (n : String) : String × String :=
  if '@' ∈ n.data.drop 1 then
    (⟨n.data.take 1 ++ (n.data.drop 1).takeWhile (fun c => c != '@')⟩,
     ⟨((n.data.drop 1).dropWhile (fun c => c != '@')).drop 1⟩)
  else (n, "latest")

/-- depEntryAmended is the amended wording forced by the code: the name is the
first character plus the part before the first `@` of the tail, and the
version tag is the part strictly between the first and second such `@`
(everything after the first `@` when there is no second one). -/
def depEntryAmended (n : String) : String × String :=
  if '@' ∈ n.data.drop 1 then
    (⟨n.data.take 1 ++ (n.data.drop 1).takeWhile (fun c => c != '@')⟩,
     ⟨(((n.data.drop 1).dropWhile (fun c => c != '@')).drop 1).takeWhile (fun c => c != '@')⟩)
  else (n, "latest")

/-- Source models a module file: its text together with the verdict of the
external ESM parser (acorn): `none` when `parse` throws, otherwise the list of
`ImportDeclaration` source values in declaration order. -/
structure Source where
  text : String
  imports : Option (List String)
deriving DecidableEq

/-- Descriptor is the object passed to `JSON.stringify` at src/index.mjs lines
103-108; the JSON text is modelled structurally by its four fields. -/
structure Descriptor where
  name : String
  version : String
  dependencies : List (String × String)
  exports : String
deriving DecidableEq

/-- TarContent is one archive entry's payload: the synthesized descriptor
document or a verbatim file. -/
inductive TarContent where
  | descriptor (d : Descriptor)
  | file (text : String)
deriving DecidableEq

/-- Err enumerates the exceptions the handler can leak: a `ParseError` thrown
by the module parser, or an `ENOENT` thrown by `statSync` on a missing file. -/
inductive Err where
  | parseError
  | enoent
deriving DecidableEq

/-- alookup is association-list lookup, the model of file-system lookups in an
explicitly carried directory listing. -/
def alookup {α β : Type} [DecidableEq α] : List (α × β) → α → Option β
  | [], _ => none
  | (k, v) :: rest, key => if key = k then some v else alookup rest key

/-- FolderEntry is one regular file of a package directory: its file name and
its content. -/
abbrev FolderEntry := String × Source

/-- Store is the explicit file-system state: the data directory as a map from
(scope, name) to the package folder's regular files (absent key = absent
folder), and the cache directory as a map from cache file name to the archive
entries stored in that file. -/
structure Store where
  data : List ((String × String) × List FolderEntry)
  cache : List (String × List (String × TarContent))
deriving DecidableEq

/-- cacheKey is the cache file name `${scope}__${name}-${version}` from
src/index.mjs line 89. -/
def cacheKey (scope name version : String) : String :=
  scope ++ "__" ++ name ++ "-" ++ version

/-- generateTarFile (src/index.mjs lines 98-119): read the source, infer its
dependencies (a parse failure rejects the promise before anything is written),
and write an archive of exactly two entries: the synthesized descriptor at
`package/package.json` and the unmodified source text at `package/index.mjs`. -/
def generateTarFile (scope name version : String) (src : Source) :
    Except Err (List (String × TarContent)) :=
  match src.imports with
  | none => .error .parseError
  | some imps =>
    .ok [("package/package.json",
          .descriptor ⟨scope ++ "/" ++ name, version, findDependencies imps, "./index.mjs"⟩),
         ("package/index.mjs", .file src.text)]

/-- MRes is the result of `generateManifest`: `null` (folder missing or no
valid versions), a thrown exception, or the manifest, carried as the sorted
valid version list plus the `dist-tags.latest` value. -/
inductive MRes where
  | noFolder
  | noVersions
  | fail (e : Err)
  | ok (versions : List String) (latest : String)
deriving DecidableEq

/-- manifestVersionList (src/index.mjs lines 129-133): take the folder's
regular file names, strip each one's extension, keep the strings passing
`validateVersion`, and sort them with JavaScript's default sort. -/
def manifestVersionList (files : List FolderEntry) : List String :=
  jsSort ((files.map (fun f => stripExt f.1)).filter validateVersion)

/-- generateManifest (src/index.mjs lines 121-182): `null` when the folder is
missing or no valid version remains; otherwise `dist-tags.latest` is the last
element of the sorted list.  Building `versionDates` calls `statSync` on
`<v>.mjs` for every valid version (line 143) and throws `ENOENT` if one is
missing; afterwards every version's source is read and parsed for its
dependencies (lines 161-163) and a parse failure rejects the whole manifest.
The per-version `dist.tarball` URL and the `time` object are derived fields
not referenced by any verified property. -/
def generateManifest (folder : Option (List FolderEntry)) : MRes :=
  match folder with
  | none => .noFolder
  | some files =>
    match (manifestVersionList files).getLast? with
    | none => .noVersions
    | some latest =>
      if (manifestVersionList files).all
          (fun v => (alookup files (v ++ ".mjs")).isSome) then
        if (manifestVersionList files).all
            (fun v =>
              match alookup files (v ++ ".mjs") with
              | some src => src.imports.isSome
              | none => false) then
          .ok (manifestVersionList files) latest
        else .fail .parseError
      else .fail .enoent

/-- Outcome is what one request produces: the 404 response, a manifest
response, a streamed archive (`built = true` when `generateTarFile` ran on
this request, `false` when an existing cache file was streamed untouched), or
an exception escaping the async handler. -/
inductive Outcome where
  | notFound
  | manifestOk (versions : List String) (latest : String)
  | archiveServed (key : String) (content : List (String × TarContent)) (built : Bool)
  | crash (e : Err)
deriving DecidableEq

/-- validMethods is the allowed verb list from src/index.mjs line 16. -/
def validMethods : List String := ["GET"]

/-- manifestOutcome is the manifest branch of the handler (src/index.mjs lines
54-67): a `null` manifest answers 404, a thrown exception escapes, otherwise
the manifest JSON is written. -/
def manifestOutcome (st : Store) (scope name : String) : Outcome × Store :=
  match generateManifest (alookup st.data (scope, name)) with
  | .noFolder => (.notFound, st)
  | .noVersions => (.notFound, st)
  | .fail e => (.crash e, st)
  | .ok vs latest => (.manifestOk vs latest, st)

/-- routeCore is the request handler of src/index.mjs lines 27-96, applied to
the (up to) first three decoded path segments, exactly as the destructuring at
line 41 reads them.  A missing segment is JavaScript's `undefined`, which every
validator treats as falsy; an empty third segment is falsy at line 54 and
selects the manifest branch as well.  On the archive branch the handler checks
the source file's existence (line 81), then the cache file (line 91), building
and persisting the archive on a miss before streaming the cache file. -/
def routeCore (st : Store) (method : String)
    (scope? name? rv? : Option String) : Outcome × Store :=
  if validMethods.contains method then
    match scope? with
    | none => (.notFound, st)
    | some scope =>
      if validateScope scope then
        match name? with
        | none => (.notFound, st)
        | some name =>
          if validatePackageName name then
            match rv? with
            | none => manifestOutcome st scope name
            | some rv =>
              if rv = "" then manifestOutcome st scope name
              else
                if validateVersion (stripExt rv) then
                  match alookup st.data (scope, name) with
                  | none => (.notFound, st)
                  | some files =>
                    match alookup files (stripExt rv ++ ".mjs") with
                    | none => (.notFound, st)
                    | some src =>
                      match alookup st.cache (cacheKey scope name (stripExt rv)) with
                      | some content =>
                        (.archiveServed (cacheKey scope name (stripExt rv)) content false, st)
                      | none =>
                        match generateTarFile scope name (stripExt rv) src with
                        | .error e => (.crash e, st)
                        | .ok entries =>
                          (.archiveServed (cacheKey scope name (stripExt rv)) entries true,
                           { st with
                              cache :=
                                (cacheKey scope name (stripExt rv), entries) :: st.cache })
                else (.notFound, st)
          else (.notFound, st)
      else (.notFound, st)
  else (.notFound, st)

/-- handle runs one request: the method and the decoded path split on `/`
(src/index.mjs line 37); only the first three segments are read (line 41). -/
def handle (st : Store) (method : String) (parts : List String) : Outcome × Store :=
  routeCore st method parts[0]? parts[1]? parts[2]?

/-- servesArchive reports whether an outcome streamed archive bytes. -/
def servesArchive : Outcome → Bool
  | .archiveServed _ _ _ => true
  | _ => false

/-- validateScopeOpt applies `validateScope` to a possibly missing path
segment: JavaScript's destructuring yields `undefined` for a missing segment
and `scope && ...` makes `validateScope(undefined)` falsy. -/
def validateScopeOpt : Option String → Bool
  | none => false
  | some s => validateScope s

/-- validatePackageNameOpt applies `validatePackageName` to a possibly missing
path segment, with `undefined` treated as falsy exactly as in the source. -/
def validatePackageNameOpt : Option String → Bool
  | none => false
  | some s => validatePackageName s

/-- RaceState models two concurrent archive requests for the same uncached
cache key, abstracting src/index.mjs lines 91-93.  Each task's program counter
is: 0 = about to evaluate `existsSync(tarFile)` (line 91), 1 = observed a miss
and is about to run `generateTarFile` (line 92), 2 = finished (streaming).
`cacheExists` is whether the cache file is present, `builds` counts completed
`generateTarFile` runs.  The `await` between the existence check and the build
is a suspension point at which the other request's task may be scheduled. -/
structure RaceState where
  cacheExists : Bool
  pc1 : Nat
  pc2 : Nat
  builds : Nat
deriving DecidableEq

/-- taskStep advances one task by one step, given the shared cache flag and
this task's program counter; it returns the new cache flag, new counter, and
how many builds completed in this step. -/
def taskStep (cache : Bool) (pc : Nat) : Bool × Nat × Nat :=
  if pc = 0 then (cache, if cache then 2 else 1, 0)
  else if pc = 1 then (true, 2, 1)
  else (cache, pc, 0)

/-- raceStep runs one scheduler step: `false` advances task 1, `true` advances
task 2. -/
def raceStep (s : RaceState) (t : Bool) : RaceState :=
  if t then
    let r := taskStep s.cacheExists s.pc2
    ⟨r.1, s.pc1, r.2.1, s.builds + r.2.2⟩
  else
    let r := taskStep s.cacheExists s.pc1
    ⟨r.1, r.2.1, s.pc2, s.builds + r.2.2⟩

/-- raceRun executes a schedule, a list of scheduler choices. -/
def raceRun (sched : List Bool) (s : RaceState) : RaceState :=
  sched.foldl raceStep s

/-- raceInit is the initial state of two first-time requests for the same
cache key: no cache file, both tasks at the existence check, no builds yet. -/
def raceInit : RaceState := ⟨false, 0, 0, 0⟩

/-- okSrc is a module source that parses and declares no imports. -/
def okSrc : Source := ⟨"export default 1", some []⟩

/-- badSrc is a module source rejected by the parser (unterminated import). -/
def badSrc : Source := ⟨"import x from", none⟩

/-- storeBasic holds one package `@a/b` with a single valid version `1.0.0`
and an empty cache. -/
def storeBasic : Store := ⟨[(("@a", "b"), [("1.0.0.mjs", okSrc)])], []⟩

/-- storeParseFail holds one package `@a/b` whose only version's source fails
to parse, with an empty cache. -/
def storeParseFail : Store := ⟨[(("@a", "b"), [("1.0.0.mjs", badSrc)])], []⟩

/-- storeCachedNoSource has an empty data directory but a cache file for
`@a/b@1.0.0`, the state reached when a source file is deleted after its
archive was cached. -/
def storeCachedNoSource : Store :=
  ⟨[], [("@a__b-1.0.0", [("package/index.mjs", .file "x")])]⟩

/-- storeJunk holds package `@a/b` with a good `1.0.0.mjs` next to a stray
`2.0.0.txt`: the stray file's stem `2.0.0` passes the version filter but has
no `2.0.0.mjs` companion. -/
def storeJunk : Store :=
  ⟨[(("@a", "b"), [("1.0.0.mjs", okSrc), ("2.0.0.txt", okSrc)])], []⟩

/-- storeFooCaps holds a folder reachable only through an invalid
uppercase scope, for checking that validation ignores the store. -/
def storeFooCaps : Store := ⟨[(("Foo", "bar"), [("1.0.0.mjs", okSrc)])], []⟩

/-- builtEntries is the archive the handler builds for `@a/b@1.0.0` from
`okSrc`: the synthesized descriptor and the verbatim module source. -/
def builtEntries : List (String × TarContent) :=
  [("package/package.json", .descriptor ⟨"@a/b", "1.0.0", [], "./index.mjs"⟩),
   ("package/index.mjs", .file "export default 1")]

/-- storeBasicCached is `storeBasic` after one successful archive request: the
built archive persisted under its cache key. -/
def storeBasicCached : Store :=
  ⟨[(("@a", "b"), [("1.0.0.mjs", okSrc)])], [("@a__b-1.0.0", builtEntries)]⟩

end NpmRegistry

namespace NpmRegistry

example : validateScope "@foo" = true := by decide
example : validateScope "Foo" = false := by decide
example : validateScope "@" = false := by decide
example : validatePackageName "bar-one" = true := by decide
example : validatePackageName "bar_one" = false := by decide
example : validateVersion "1.0.0" = true := by decide
example : validateVersion "1.2" = false := by decide
example : validateVersion "10.0.0" = true := by decide
example : stripExt "1.0.0.mjs" = "1.0.0" := by decide
example : stripExt "1.0.0" = "1.0" := by decide
example : stripExt ".bashrc" = ".bashrc" := by decide
example : stripExt "abc" = "abc" := by decide
example : jsSort ["10.0.0", "2.0.0"] = ["10.0.0", "2.0.0"] := by decide
example : jsSort ["1.0.0", "1.1.0", "0.1.0"] = ["0.1.0", "1.0.0", "1.1.0"] := by decide
example : numericMax ["10.0.0", "2.0.0"] = some "10.0.0" := by decide
example : versionTriple "10.0.0" = some (10, 0, 0) := by decide

example : depEntry "@scope/dep@1.2.3" = ("@scope/dep", "1.2.3") := by decide
example : depEntry "lib" = ("lib", "latest") := by decide
example : depEntry "a@b" = ("a", "b") := by decide
example : depEntry "@scope/dep@1.2.3@x" = ("@scope/dep", "1.2.3") := by decide
example : findDependencies ["node:fs"] = [] := by decide
example : findDependencies ["@scope/dep@1.2.3", "lib", "node:fs"]
    = [("@scope/dep", "1.2.3"), ("lib", "latest")] := by decide

example :
    handle ⟨[(("@a", "b"), [("1.0.0.mjs", ⟨"export {}", some []⟩)])], []⟩
      "GET" ["@a", "b"]
      = (.manifestOk ["1.0.0"] "1.0.0",
         ⟨[(("@a", "b"), [("1.0.0.mjs", ⟨"export {}", some []⟩)])], []⟩) := by decide

example :
    (handle ⟨[(("@a", "b"), [("1.0.0.mjs", ⟨"export {}", some []⟩)])], []⟩
      "GET" ["@a", "b", "1.0.0.tgz"]).1
      = .archiveServed "@a__b-1.0.0"
          [("package/package.json", .descriptor ⟨"@a/b", "1.0.0", [], "./index.mjs"⟩),
           ("package/index.mjs", .file "export {}")] true := by decide

example :
    handle ⟨[], []⟩ "POST" ["@a", "b"] = (.notFound, (⟨[], []⟩ : Store)) := by decide

/-- string_eq_of_data: two strings with equal character lists are equal. -/
theorem string_eq_of_data {s t : String} (h : s.data = t.data) : s = t := by
  cases s; cases t; simp_all

/-- consumeDigits_chars: every character of the input is a digit or survives
into the remainder returned by `consumeDigits`. -/
theorem consumeDigits_chars {c : Char} :
    ∀ {l : List Char}, c ∈ l → isDigitCh c = true ∨ c ∈ consumeDigits l := by
  intro l
  induction l with
  | nil => intro h; cases h
  | cons x rest ih =>
    intro h
    by_cases hd : isDigitCh x = true
    · rcases List.mem_cons.mp h with rfl | hm
      · exact Or.inl hd
      · rcases ih hm with h1 | h1
        · exact Or.inl h1
        · refine Or.inr ?_
          rw [consumeDigits, if_pos hd]
          exact h1
    · refine Or.inr ?_
      rw [consumeDigits, if_neg hd]
      exact h

/-- consumeNum_chars: every character of a successfully matched `\d+` input is
a digit or belongs to the returned remainder. -/
theorem consumeNum_chars {c : Char} {l r : List Char}
    (hn : consumeNum l = some r) (hm : c ∈ l) : isDigitCh c = true ∨ c ∈ r := by
  cases l with
  | nil => simp [consumeNum] at hn
  | cons x rest =>
    rw [consumeNum] at hn
    by_cases hd : isDigitCh x = true
    · rw [if_pos hd] at hn
      injection hn with hr
      subst hr
      rcases List.mem_cons.mp hm with rfl | hmm
      · exact Or.inl hd
      · exact consumeDigits_chars hmm
    · rw [if_neg hd] at hn
      cases hn

/-- validateVersion_chars: a valid version string consists of digits and dots
only. -/
theorem validateVersion_chars {v : String} (h : validateVersion v = true) :
    ∀ c ∈ v.data, isDigitCh c = true ∨ c = '.' := by
  intro c hc
  unfold validateVersion at h
  split at h
  case _ r1 heq1 =>
    split at h
    case _ r2 heq2 =>
      split at h
      case _ heq3 =>
        rcases consumeNum_chars heq1 hc with hd | hm1
        · exact Or.inl hd
        rcases List.mem_cons.mp hm1 with rfl | hm1
        · exact Or.inr rfl
        rcases consumeNum_chars heq2 hm1 with hd | hm2
        · exact Or.inl hd
        rcases List.mem_cons.mp hm2 with rfl | hm2
        · exact Or.inr rfl
        rcases consumeNum_chars heq3 hm2 with hd | hm3
        · exact Or.inl hd
        · cases hm3
      case _ => cases h
    case _ => cases h
  case _ => cases h

/-- version_no_dash: a valid version string contains no hyphen. -/
theorem version_no_dash {v : String} (h : validateVersion v = true) :
    '-' ∉ v.data := by
  intro hm
  rcases validateVersion_chars h _ hm with h1 | h1
  · exact absurd h1 (by decide)
  · exact absurd h1 (by decide)

/-- version_no_underscore: a valid version string contains no underscore. -/
theorem version_no_underscore {v : String} (h : validateVersion v = true) :
    '_' ∉ v.data := by
  intro hm
  rcases validateVersion_chars h _ hm with h1 | h1
  · exact absurd h1 (by decide)
  · exact absurd h1 (by decide)

/-- version_ne_nil: a valid version string is non-empty. -/
theorem version_ne_nil {v : String} (h : validateVersion v = true) :
    v.data ≠ [] := by
  intro hnil
  unfold validateVersion at h
  rw [hnil] at h
  cases h

/-- scope_no_underscore: a valid scope contains no underscore. -/
theorem scope_no_underscore {s : String} (h : validateScope s = true) :
    '_' ∉ s.data := by
  intro hm
  unfold validateScope at h
  cases hd : s.data with
  | nil => rw [hd] at h; cases h
  | cons c rest =>
    rw [hd] at h hm
    have h1 := (Bool.and_eq_true _ _).mp h
    have h2 := (Bool.and_eq_true _ _).mp h1.1
    rcases List.mem_cons.mp hm with rfl | hmm
    · exact absurd h2.1 (by decide)
    · exact absurd (List.all_eq_true.mp h1.2 _ hmm) (by decide)

/-- name_no_underscore: a valid package name contains no underscore. -/
theorem name_no_underscore {s : String} (h : validatePackageName s = true) :
    '_' ∉ s.data := by
  intro hm
  unfold validatePackageName at h
  have h1 := (Bool.and_eq_true _ _).mp h
  exact absurd (List.all_eq_true.mp h1.2 _ hm) (by decide)

/-- append_cons_inj: splitting a list at a separator character that occurs in
neither prefix is unambiguous. -/
theorem append_cons_inj {c : Char} :
    ∀ (a a' b b' : List Char), c ∉ a → c ∉ a' →
      a ++ c :: b = a' ++ c :: b' → a = a' ∧ b = b' := by
  intro a
  induction a with
  | nil =>
    intro a' b b' _ ha' h
    cases a' with
    | nil => simpa using h
    | cons x t =>
      simp only [List.nil_append, List.cons_append, List.cons.injEq] at h
      exact absurd (h.1 ▸ List.mem_cons_self x t) ha'
  | cons x t ih =>
    intro a' b b' ha ha' h
    cases a' with
    | nil =>
      simp only [List.nil_append, List.cons_append, List.cons.injEq] at h
      exact absurd (h.1 ▸ List.mem_cons_self x t) ha
    | cons y u =>
      simp only [List.cons_append, List.cons.injEq] at h
      obtain ⟨rfl, h2⟩ := h
      have hta : c ∉ t := fun hm => ha (List.mem_cons_of_mem _ hm)
      have hua : c ∉ u := fun hm => ha' (List.mem_cons_of_mem _ hm)
      obtain ⟨h3, h4⟩ := ih u b b' hta hua h2
      exact ⟨by rw [h3], h4⟩

/-- dropThroughDot_append: scanning past a dot-free prefix finds the first dot
and returns what follows it, provided that remainder is non-empty. -/
theorem dropThroughDot_append {w r : List Char} (hw : '.' ∉ w) (hr : r ≠ []) :
    dropThroughDot (w ++ '.' :: r) = some r := by
  induction w with
  | nil =>
    cases r with
    | nil => exact absurd rfl hr
    | cons x t => simp [dropThroughDot]
  | cons x t ih =>
    have hx : ¬ x = '.' := fun he => hw (he ▸ List.mem_cons_self x t)
    have ht : '.' ∉ t := fun hm => hw (List.mem_cons_of_mem _ hm)
    rw [List.cons_append, dropThroughDot, if_neg hx]
    exact ih ht

/-- stripExt_append_ext: appending a dot plus a dot-free extension to a
non-empty name and stripping the extension recovers the name. -/
theorem stripExt_append_ext {v : String} {e : List Char}
    (hv : v.data ≠ []) (he : '.' ∉ e) :
    stripExt ⟨v.data ++ '.' :: e⟩ = v := by
  unfold stripExt
  have h1 : (String.mk (v.data ++ '.' :: e)).data.reverse
      = e.reverse ++ '.' :: v.data.reverse := by
    show (v.data ++ '.' :: e).reverse = e.reverse ++ '.' :: v.data.reverse
    rw [List.reverse_append, List.reverse_cons, List.append_assoc]
    rfl
  rw [h1]
  have he' : '.' ∉ e.reverse := fun hm => he (List.mem_reverse.mp hm)
  have hv' : v.data.reverse ≠ [] := by
    intro h2
    exact hv (List.reverse_eq_nil_iff.mp h2)
  rw [dropThroughDot_append he' hv']
  show (⟨v.data.reverse.reverse⟩ : String) = v
  rw [List.reverse_reverse]

/-- stripExt_tgz: stripping the extension of `v.tgz` recovers a non-empty `v`,
whatever characters `v` contains. -/
theorem stripExt_tgz {v : String} (hv : v.data ≠ []) :
    stripExt (v ++ ".tgz") = v := by
  have h1 : (v ++ ".tgz") = (⟨v.data ++ '.' :: ['t', 'g', 'z']⟩ : String) := by
    apply string_eq_of_data
    rw [String.data_append]
  rw [h1]
  exact stripExt_append_ext hv (by decide)

/-- stripExt_mjs: stripping the extension of `v.mjs` recovers a non-empty `v`. -/
theorem stripExt_mjs {v : String} (hv : v.data ≠ []) :
    stripExt (v ++ ".mjs") = v := by
  have h1 : (v ++ ".mjs") = (⟨v.data ++ '.' :: ['m', 'j', 's']⟩ : String) := by
    apply string_eq_of_data
    rw [String.data_append]
  rw [h1]
  exact stripExt_append_ext hv (by decide)

/-- append_tgz_ne_empty: a path segment of the form `v.tgz` is never the empty
string. -/
theorem append_tgz_ne_empty (v : String) : v ++ ".tgz" ≠ "" := by
  intro h
  have h2 : (v ++ ".tgz").data = [] := by rw [h]
  rw [String.data_append] at h2
  simp at h2

/-- mem_insertSorted: insertion preserves membership. -/
theorem mem_insertSorted {y x : String} :
    ∀ {l : List String}, y ∈ insertSorted x l ↔ y = x ∨ y ∈ l := by
  intro l
  induction l with
  | nil => simp [insertSorted]
  | cons z zs ih =>
    unfold insertSorted
    by_cases hc : lexLe x.data z.data = true
    · rw [if_pos hc]
      simp [List.mem_cons]
    · rw [if_neg hc]
      simp only [List.mem_cons, ih]
      tauto

/-- mem_jsSort: JavaScript's sort permutes its input, so membership in the
sorted valid-version list is membership in the unsorted one. -/
theorem mem_jsSort {y : String} :
    ∀ {l : List String}, y ∈ jsSort l ↔ y ∈ l := by
  intro l
  induction l with
  | nil => simp [jsSort]
  | cons x xs ih =>
    show y ∈ insertSorted x (jsSort xs) ↔ _
    rw [mem_insertSorted]
    simp only [List.mem_cons, ih]

/-- alookup_some_mem: a successful association-list lookup produces a pair of
the list. -/
theorem alookup_some_mem {α β : Type} [DecidableEq α] :
    ∀ (l : List (α × β)) (k : α) (v : β), alookup l k = some v → (k, v) ∈ l
  | [], _, _, h => by cases h
  | (a, b) :: rest, k, v, h => by
    rw [alookup] at h
    by_cases hk : k = a
    · rw [if_pos hk] at h
      injection h with hv
      subst hk
      subst hv
      exact List.mem_cons_self _ _
    · rw [if_neg hk] at h
      exact List.mem_cons_of_mem _ (alookup_some_mem rest k v h)

/-- alookup_cons_self: looking up the key just prepended finds its value. -/
theorem alookup_cons_self {α β : Type} [DecidableEq α] (k : α) (v : β)
    (l : List (α × β)) : alookup ((k, v) :: l) k = some v := by
  rw [alookup, if_pos rfl]

/-- splitOnChar_ne_nil: a split always has at least one part. -/
theorem splitOnChar_ne_nil (c : Char) : ∀ l, splitOnChar c l ≠ []
  | [] => by simp [splitOnChar]
  | x :: rest => by
    rw [splitOnChar]
    by_cases hx : x = c
    · rw [if_pos hx]; simp
    · rw [if_neg hx]
      cases hs : splitOnChar c rest with
      | nil => simp
      | cons p ps => simp

/-- splitOnChar_of_not_mem: a list free of the separator is one part. -/
theorem splitOnChar_of_not_mem (c : Char) :
    ∀ {l : List Char}, c ∉ l → splitOnChar c l = [l] := by
  intro l
  induction l with
  | nil => intro _; rfl
  | cons x rest ih =>
    intro h
    have hx : ¬ x = c := fun he => h (by rw [he]; exact List.mem_cons_self _ _)
    have hr : c ∉ rest := fun hm => h (List.mem_cons_of_mem _ hm)
    rw [splitOnChar, if_neg hx, ih hr]

/-- splitOnChar_of_mem: when the separator occurs, the first part is the
maximal separator-free prefix and the remaining parts split what follows the
first separator. -/
theorem splitOnChar_of_mem (c : Char) :
    ∀ {l : List Char}, c ∈ l →
      splitOnChar c l = l.takeWhile (fun x => x != c)
        :: splitOnChar c ((l.dropWhile (fun x => x != c)).drop 1) := by
  intro l
  induction l with
  | nil => intro h; cases h
  | cons x rest ih =>
    intro h
    by_cases hx : x = c
    · subst hx
      rw [splitOnChar, if_pos rfl, List.takeWhile_cons, List.dropWhile_cons]
      simp
    · have hr : c ∈ rest := by
        rcases List.mem_cons.mp h with he | hm
        · exact absurd he.symm hx
        · exact hm
      have hb : (x != c) = true := by simpa using hx
      rw [splitOnChar, if_neg hx, ih hr, List.takeWhile_cons, List.dropWhile_cons, hb]
      simp

/-- takeWhile_eq_self_of_not_mem: a separator-free list is its own maximal
separator-free prefix. -/
theorem takeWhile_eq_self_of_not_mem {c : Char} {l : List Char} (h : c ∉ l) :
    l.takeWhile (fun x => x != c) = l := by
  refine List.takeWhile_eq_self_iff.mpr ?_
  intro x hx
  have : ¬ x = c := fun he => h (he ▸ hx)
  simpa using this

/-- depEntry_eq_amended: the code's destructured split agrees everywhere with
the amended wording (name from the first separator, tag up to the second). -/
theorem depEntry_eq_amended (n : String) : depEntry n = depEntryAmended n := by
  unfold depEntry depEntryAmended
  by_cases hm : '@' ∈ n.data.drop 1
  · rw [if_pos hm, if_pos hm, splitOnChar_of_mem '@' hm]
    by_cases hm2 : '@' ∈ ((n.data.drop 1).dropWhile (fun x => x != '@')).drop 1
    · rw [splitOnChar_of_mem '@' hm2]
    · rw [splitOnChar_of_not_mem '@' hm2, takeWhile_eq_self_of_not_mem hm2]
  · rw [if_neg hm, if_neg hm]

/-- methodGetOk: the GET method passes the `validMethods.includes` check. -/
theorem methodGetOk : validMethods.contains "GET" = true := by decide

/-- routeCore_archive_eq: once the method and all three identity validations
pass, the handler reduces to the archive pipeline: source existence check,
cache lookup, then build on a miss. -/
theorem routeCore_archive_eq (st : Store) (scope name rv : String)
    (hs : validateScope scope = true) (hn : validatePackageName name = true)
    (hrv : ¬ rv = "") (hv : validateVersion (stripExt rv) = true) :
    routeCore st "GET" (some scope) (some name) (some rv) =
      (match alookup st.data (scope, name) with
       | none => (.notFound, st)
       | some files =>
         match alookup files (stripExt rv ++ ".mjs") with
         | none => (.notFound, st)
         | some src =>
           match alookup st.cache (cacheKey scope name (stripExt rv)) with
           | some content =>
             (.archiveServed (cacheKey scope name (stripExt rv)) content false, st)
           | none =>
             match generateTarFile scope name (stripExt rv) src with
             | .error e => (.crash e, st)
             | .ok entries =>
               (.archiveServed (cacheKey scope name (stripExt rv)) entries true,
                { st with
                    cache := (cacheKey scope name (stripExt rv), entries) :: st.cache })) := by
  simp only [routeCore, methodGetOk, hs, hn, hv, hrv, if_true, ite_true, ite_false,
    eq_self_iff_true, if_false]

/-- routeCore_hit: with the source file present and the cache file present,
the handler streams the cached content untouched. -/
theorem routeCore_hit (st : Store) (scope name rv : String)
    (files : List FolderEntry) (src : Source) (content : List (String × TarContent))
    (hs : validateScope scope = true) (hn : validatePackageName name = true)
    (hrv : ¬ rv = "") (hv : validateVersion (stripExt rv) = true)
    (hf : alookup st.data (scope, name) = some files)
    (hsrc : alookup files (stripExt rv ++ ".mjs") = some src)
    (hc : alookup st.cache (cacheKey scope name (stripExt rv)) = some content) :
    routeCore st "GET" (some scope) (some name) (some rv)
      = (.archiveServed (cacheKey scope name (stripExt rv)) content false, st) := by
  rw [routeCore_archive_eq st scope name rv hs hn hrv hv]
  simp only [hf, hsrc, hc]

/-- routeCore_miss: with the source file present, the cache file absent and a
parseable source, the handler builds the two-entry archive, persists it under
the cache key, and streams it. -/
theorem routeCore_miss (st : Store) (scope name rv : String)
    (files : List FolderEntry) (src : Source) (imps : List String)
    (hs : validateScope scope = true) (hn : validatePackageName name = true)
    (hrv : ¬ rv = "") (hv : validateVersion (stripExt rv) = true)
    (hf : alookup st.data (scope, name) = some files)
    (hsrc : alookup files (stripExt rv ++ ".mjs") = some src)
    (hc : alookup st.cache (cacheKey scope name (stripExt rv)) = none)
    (hi : src.imports = some imps) :
    routeCore st "GET" (some scope) (some name) (some rv)
      = (.archiveServed (cacheKey scope name (stripExt rv))
          [("package/package.json",
            .descriptor ⟨scope ++ "/" ++ name, stripExt rv,
              findDependencies imps, "./index.mjs"⟩),
           ("package/index.mjs", .file src.text)] true,
         { st with
             cache := (cacheKey scope name (stripExt rv),
               [("package/package.json",
                 .descriptor ⟨scope ++ "/" ++ name, stripExt rv,
                   findDependencies imps, "./index.mjs"⟩),
                ("package/index.mjs", .file src.text)]) :: st.cache }) := by
  rw [routeCore_archive_eq st scope name rv hs hn hrv hv]
  simp only [hf, hsrc, hc, generateTarFile, hi]

/-- manifestOutcome_not_archive: the manifest branch never streams an archive. -/
theorem manifestOutcome_not_archive {st st' : Store} {scope name k : String}
    {c : List (String × TarContent)} {b : Bool} :
    manifestOutcome st scope name = (.archiveServed k c b, st') → False := by
  unfold manifestOutcome
  split <;> intro h <;> simp at h

/-- routeCore_archive_inv: anatomy of a successful archive response — the
validations passed, the source file exists, and either the cache was hit and
left untouched, or it was missed and the built archive was persisted. -/
theorem routeCore_archive_inv {st st' : Store} {method scope name rv : String}
    {k : String} {c : List (String × TarContent)} {b : Bool}
    (h : routeCore st method (some scope) (some name) (some rv)
      = (.archiveServed k c b, st')) :
    validateScope scope = true ∧ validatePackageName name = true ∧ ¬ rv = "" ∧
    validateVersion (stripExt rv) = true ∧ k = cacheKey scope name (stripExt rv) ∧
    ∃ files src, alookup st.data (scope, name) = some files ∧
      alookup files (stripExt rv ++ ".mjs") = some src ∧
      ((alookup st.cache k = some c ∧ b = false ∧ st' = st) ∨
       (alookup st.cache k = none ∧ b = true ∧
        generateTarFile scope name (stripExt rv) src = Except.ok c ∧
        st' = { st with cache := (k, c) :: st.cache })) := by
  unfold routeCore at h
  split at h
  case isTrue =>
    simp only [] at h
    split at h
    case isTrue hs =>
      split at h
      case isTrue hn =>
        split at h
        case isTrue hrv => exact absurd h manifestOutcome_not_archive
        case isFalse hrv =>
          split at h
          case isTrue hv =>
            split at h
            case _ => simp at h
            case _ files hf =>
              split at h
              case _ => simp at h
              case _ src hsrc =>
                split at h
                case _ content hc =>
                  simp only [Prod.mk.injEq, Outcome.archiveServed.injEq] at h
                  obtain ⟨⟨hk, hcc, hb⟩, hst⟩ := h
                  subst hk
                  refine ⟨hs, hn, hrv, hv, rfl, files, src, hf, hsrc, Or.inl ?_⟩
                  rw [← hcc, ← hb, ← hst]
                  exact ⟨hc, rfl, rfl⟩
                case _ hc =>
                  split at h
                  case _ e hg => simp at h
                  case _ entries hg =>
                    simp only [Prod.mk.injEq, Outcome.archiveServed.injEq] at h
                    obtain ⟨⟨hk, hcc, hb⟩, hst⟩ := h
                    subst hk
                    refine ⟨hs, hn, hrv, hv, rfl, files, src, hf, hsrc, Or.inr ?_⟩
                    rw [← hcc, ← hb, ← hst]
                    exact ⟨hc, rfl, hg, rfl⟩
          case isFalse hv => simp at h
      case isFalse => simp at h
    case isFalse => simp at h
  case isFalse => simp at h

/-- manifestOk_inv: anatomy of a successful manifest response — both
validations passed, the store is untouched, and `generateManifest` returned
the manifest. -/
theorem manifestOk_inv {st st' : Store} {method scope name : String}
    {vs : List String} {latest : String}
    (h : routeCore st method (some scope) (some name) none
      = (.manifestOk vs latest, st')) :
    validateScope scope = true ∧ validatePackageName name = true ∧ st' = st ∧
    generateManifest (alookup st.data (scope, name)) = .ok vs latest := by
  unfold routeCore at h
  split at h
  case isTrue =>
    simp only [] at h
    split at h
    case isTrue hs =>
      split at h
      case isTrue hn =>
        unfold manifestOutcome at h
        split at h
        case _ hg => simp at h
        case _ hg => simp at h
        case _ e hg => simp at h
        case _ vs0 l0 hg =>
          simp only [Prod.mk.injEq, Outcome.manifestOk.injEq] at h
          obtain ⟨⟨hv, hl⟩, hst⟩ := h
          rw [hv, hl] at hg
          exact ⟨hs, hn, hst.symm, hg⟩
      case isFalse => simp at h
    case isFalse => simp at h
  case isFalse => simp at h

/-- generateManifest_ok_inv: a manifest is produced exactly when the folder
exists, its sorted valid-version list is the returned one, every valid version
has its `<v>.mjs` file, and every such file parses. -/
theorem generateManifest_ok_inv {folder : Option (List FolderEntry)}
    {vs : List String} {latest : String}
    (h : generateManifest folder = .ok vs latest) :
    ∃ files, folder = some files ∧ vs = manifestVersionList files ∧
      (manifestVersionList files).all
        (fun v => (alookup files (v ++ ".mjs")).isSome) = true ∧
      (manifestVersionList files).all
        (fun v =>
          match alookup files (v ++ ".mjs") with
          | some src => src.imports.isSome
          | none => false) = true := by
  cases folder with
  | none => simp [generateManifest] at h
  | some files =>
    refine ⟨files, rfl, ?_⟩
    unfold generateManifest at h
    simp only [] at h
    split at h
    case _ hg => simp at h
    case _ l0 hg =>
      split at h
      case isTrue hex =>
        split at h
        case isTrue hpar =>
          simp only [MRes.ok.injEq] at h
          exact ⟨h.1.symm, hex, hpar⟩
        case isFalse => simp at h
      case isFalse => simp at h

/-- mem_manifestVersionList: membership in the manifest's version list means a
folder file whose extension-stripped name is this valid version string. -/
theorem mem_manifestVersionList {files : List FolderEntry} {v : String} :
    v ∈ manifestVersionList files
      ↔ ((∃ f ∈ files, stripExt f.1 = v) ∧ validateVersion v = true) := by
  unfold manifestVersionList
  rw [mem_jsSort, List.mem_filter, List.mem_map]

/-- routeCore_method_notFound: any request with a verb outside the allowed set
answers 404 before looking at the path. -/
theorem routeCore_method_notFound (st : Store) (method : String)
    (s? n? r? : Option String) (hm : validMethods.contains method = false) :
    routeCore st method s? n? r? = (.notFound, st) := by
  unfold routeCore
  have hm' : ¬ (validMethods.contains method = true) := by
    intro hc
    rw [hm] at hc
    exact Bool.false_ne_true hc
  rw [if_neg hm']

/-- routeCore_scope_none: a request whose path has no first segment answers
404 (the validator sees `undefined`). -/
theorem routeCore_scope_none (st : Store) (method : String)
    (n? r? : Option String) :
    routeCore st method none n? r? = (.notFound, st) := by
  unfold routeCore
  split <;> rfl

/-- routeCore_scope_invalid: an invalid scope answers 404, whatever the store
holds. -/
theorem routeCore_scope_invalid (st : Store) (method : String) (s : String)
    (n? r? : Option String) (hs : validateScope s = false) :
    routeCore st method (some s) n? r? = (.notFound, st) := by
  unfold routeCore
  split
  · simp [hs]
  · rfl

/-- routeCore_name_none: a request whose path has no second segment answers
404. -/
theorem routeCore_name_none (st : Store) (method : String) (s : String)
    (r? : Option String) :
    routeCore st method (some s) none r? = (.notFound, st) := by
  unfold routeCore
  split
  · simp
  · rfl

/-- routeCore_name_invalid: an invalid package name answers 404, whatever the
store holds. -/
theorem routeCore_name_invalid (st : Store) (method : String) (s n : String)
    (r? : Option String) (hn : validatePackageName n = false) :
    routeCore st method (some s) (some n) r? = (.notFound, st) := by
  unfold routeCore
  split
  · simp [hn]
  · rfl

/-- routeCore_version_invalid: a non-empty third segment whose
extension-stripped form fails the version grammar answers 404, whatever the
store holds. -/
theorem routeCore_version_invalid (st : Store) (method : String)
    (s n rv : String) (hne : ¬ rv = "")
    (hv : validateVersion (stripExt rv) = false) :
    routeCore st method (some s) (some n) (some rv) = (.notFound, st) := by
  unfold routeCore
  split
  · simp [hne, hv]
  · rfl

/-- handle_three: a three-segment request reads exactly those segments. -/
theorem handle_three (st : Store) (method a b c : String) :
    handle st method [a, b, c] = routeCore st method (some a) (some b) (some c) := rfl

/-- handle_two: a two-segment request reads the two segments and no third. -/
theorem handle_two (st : Store) (method a b : String) :
    handle st method [a, b] = routeCore st method (some a) (some b) none := rfl

/-- handle_take_three: the handler reads only the first three decoded path
segments; any further segments are ignored. -/
theorem handle_take_three (st : Store) (method : String) (parts : List String) :
    handle st method parts = handle st method (parts.take 3) := by
  unfold handle
  rw [List.getElem?_take_of_lt (show 0 < 3 by omega),
    List.getElem?_take_of_lt (show 1 < 3 by omega),
    List.getElem?_take_of_lt (show 2 < 3 by omega)]

/-- handle_ext_insensitive: the handler uses the third segment only through
its extension-stripped form, so any two non-empty third segments with the same
stem are served identically. -/
theorem handle_ext_insensitive (st : Store) (method : String)
    (s n rv rv' : String) (h1 : ¬ rv = "") (h2 : ¬ rv' = "")
    (h3 : stripExt rv = stripExt rv') :
    handle st method [s, n, rv] = handle st method [s, n, rv'] := by
  rw [handle_three, handle_three]
  unfold routeCore
  simp only [h1, h2, h3, ite_false, if_false]

/-- C1: the claim states that `dist-tags.latest` is the maximum valid version
under numeric three-component comparison, so that the folder with versions
2.0.0 and 10.0.0 has latest 10.0.0.  The code sorts the version strings with
JavaScript's default lexicographic sort and takes the last element, so for
that folder it reports latest = "2.0.0" although the numeric maximum is
"10.0.0"; on the claim's equal-width example the two orders happen to agree
and latest is "1.1.0". -/
theorem c1_latest_is_lexicographic_not_numeric :
    generateManifest (some [("10.0.0.mjs", okSrc), ("2.0.0.mjs", okSrc)])
      = .ok ["10.0.0", "2.0.0"] "2.0.0"
    ∧ numericMax ["10.0.0", "2.0.0"] = some "10.0.0"
    ∧ ("2.0.0" : String) ≠ "10.0.0"
    ∧ generateManifest
        (some [("1.0.0.mjs", okSrc), ("1.1.0.mjs", okSrc), ("0.1.0.mjs", okSrc)])
      = .ok ["0.1.0", "1.0.0", "1.1.0"] "1.1.0"
    ∧ numericMax ["0.1.0", "1.0.0", "1.1.0"] = some "1.1.0" := by decide

/-- C2 counterexample: for the specifier `@scope/dep@1.2.3@x` the claim's own
mapping (`depEntryClaim`, split at the `@` after the first character, tag =
the part after that `@`) yields the tag `1.2.3@x`, while the code yields
`1.2.3`: JavaScript's destructured `split('@')` keeps only the part before the
next `@`.  Under the other reading of "that `@`" (the last one) the name would
be `@scope/dep@1.2.3`, which the code does not produce either. -/
theorem c2_counterexample_version_tag_truncated :
    findDependencies ["@scope/dep@1.2.3@x"] = [("@scope/dep", "1.2.3")]
    ∧ depEntryClaim "@scope/dep@1.2.3@x" = ("@scope/dep", "1.2.3@x")
    ∧ ("1.2.3" : String) ≠ "1.2.3@x"
    ∧ ("@scope/dep" : String) ≠ "@scope/dep@1.2.3" := by decide

/-- C2 amended: the inferrer maps the import specifiers as follows — `node:`
prefixed specifiers produce no entry; a specifier whose tail contains an `@`
is split there, the name being the first character plus the part before the
first such `@` and the version tag the part strictly between the first and
second such `@` (to the end when there is no second); every other specifier
maps verbatim to "latest".  The claim's three examples behave as stated. -/
theorem c2_inferred_dependency_mapping :
    (∀ imports : List String,
      findDependencies imports
        = (imports.filter (fun n => !startsWithNode n)).map depEntryAmended)
    ∧ findDependencies ["@scope/dep@1.2.3"] = [("@scope/dep", "1.2.3")]
    ∧ findDependencies ["lib"] = [("lib", "latest")]
    ∧ findDependencies ["node:fs"] = [] := by
  refine ⟨fun imports => ?_, by decide, by decide, by decide⟩
  unfold findDependencies
  have h : depEntry = depEntryAmended := funext depEntry_eq_amended
  rw [h]

/-- C3: the claim states that a source failing to parse is answered 404 and
that the failure never escapes the handler.  In the embedding the parse
failure escapes the handler as an uncaught exception (`crash`) on both the
archive path and the manifest path; the handler never converts it into the
404 outcome. -/
theorem c3_parse_error_escapes_handler :
    handle storeParseFail "GET" ["@a", "b", "1.0.0.tgz"]
      = (.crash .parseError, storeParseFail)
    ∧ handle storeParseFail "GET" ["@a", "b"]
      = (.crash .parseError, storeParseFail)
    ∧ Outcome.crash Err.parseError ≠ Outcome.notFound := by decide

/-- C9: the claim demands exactly one archive build for concurrent first-time
requests on the same cache key.  The schedule that runs both existence checks
before either build (check, check, build, build) performs two builds, while
the fully sequential schedule performs one: the double build is caused purely
by interleaving across the await suspension point between the `existsSync`
check and the build. -/
theorem c9_concurrent_requests_race_two_builds :
    (raceRun [false, true, false, true] raceInit).builds = 2
    ∧ (raceRun [false, false, true, true] raceInit).builds = 1
    ∧ (2 : Nat) ≠ 1 := by decide

/-- C10: the cache-key file name `${scope}__${name}-${version}` is injective
over valid identities: a valid scope contains no underscore, so the `__`
separator is unambiguous, and a valid version contains no hyphen, so the last
`-` is unambiguous; hence equal keys force equal triples (the contrapositive
of: distinct triples never share a cache file). -/
theorem c10_cacheKey_injective (s n v s' n' v' : String)
    (hs : validateScope s = true) (_hn : validatePackageName n = true)
    (hv : validateVersion v = true) (hs' : validateScope s' = true)
    (_hn' : validatePackageName n' = true) (hv' : validateVersion v' = true)
    (h : cacheKey s n v = cacheKey s' n' v') :
    s = s' ∧ n = n' ∧ v = v' := by
  have h__ : ("__" : String).data = ['_', '_'] := rfl
  have hdash : ("-" : String).data = ['-'] := rfl
  have hd : s.data ++ '_' :: '_' :: (n.data ++ '-' :: v.data)
      = s'.data ++ '_' :: '_' :: (n'.data ++ '-' :: v'.data) := by
    have h0 := congrArg String.data h
    simpa [cacheKey, String.data_append, h__, hdash, List.append_assoc] using h0
  have h1 := append_cons_inj _ _ _ _ (scope_no_underscore hs) (scope_no_underscore hs') hd
  have hseq : s = s' := string_eq_of_data h1.1
  have h2 : n.data ++ '-' :: v.data = n'.data ++ '-' :: v'.data := by
    have := h1.2
    simpa using this
  have h3 : v.data.reverse ++ '-' :: n.data.reverse
      = v'.data.reverse ++ '-' :: n'.data.reverse := by
    have h4 := congrArg List.reverse h2
    rw [List.reverse_append, List.reverse_append, List.reverse_cons,
      List.reverse_cons, List.append_assoc, List.append_assoc] at h4
    simpa using h4
  have hvrev : '-' ∉ v.data.reverse :=
    fun hm => version_no_dash hv (List.mem_reverse.mp hm)
  have hvrev' : '-' ∉ v'.data.reverse :=
    fun hm => version_no_dash hv' (List.mem_reverse.mp hm)
  have h5 := append_cons_inj _ _ _ _ hvrev hvrev' h3
  have hveq : v = v' := by
    apply string_eq_of_data
    have := congrArg List.reverse h5.1
    simpa using this
  have hneq : n = n' := by
    apply string_eq_of_data
    have := congrArg List.reverse h5.2
    simpa using this
  exact ⟨hseq, hneq, hveq⟩

/-- C10 witness: the injectivity theorem applied at the valid identity
(@a, b, 1.0.0) against itself. -/
theorem c10_cacheKey_injective_witness :
    ("@a" : String) = "@a" ∧ ("b" : String) = "b" ∧ ("1.0.0" : String) = "1.0.0" :=
  c10_cacheKey_injective "@a" "b" "1.0.0" "@a" "b" "1.0.0"
    (by decide) (by decide) (by decide) (by decide) (by decide) (by decide) rfl

/-- C7: a request whose method is outside the allowed verb set, or whose
scope, name, or extension-stripped version fails its validator (a missing
segment counting as failing), is answered 404 — for every store, so the
response does not depend on whether matching files exist. -/
theorem c7_invalid_identity_not_found (st : Store) (method : String)
    (parts : List String)
    (h : validMethods.contains method = false
      ∨ validateScopeOpt parts[0]? = false
      ∨ validatePackageNameOpt parts[1]? = false
      ∨ ∃ rv, parts[2]? = some rv ∧ ¬ rv = ""
          ∧ validateVersion (stripExt rv) = false) :
    handle st method parts = (.notFound, st) := by
  unfold handle
  rcases h with hm | hsc | hnm | ⟨rv, hrv, hne, hvv⟩
  · exact routeCore_method_notFound st method _ _ _ hm
  · cases hp0 : parts[0]? with
    | none => exact routeCore_scope_none st method _ _
    | some s =>
      rw [hp0] at hsc
      exact routeCore_scope_invalid st method s _ _ hsc
  · cases hp0 : parts[0]? with
    | none => exact routeCore_scope_none st method _ _
    | some s =>
      cases hp1 : parts[1]? with
      | none => exact routeCore_name_none st method s _
      | some n =>
        rw [hp1] at hnm
        exact routeCore_name_invalid st method s n _ hnm
  · cases hp0 : parts[0]? with
    | none => exact routeCore_scope_none st method _ _
    | some s =>
      cases hp1 : parts[1]? with
      | none => exact routeCore_name_none st method s _
      | some n =>
        rw [hrv]
        exact routeCore_version_invalid st method s n rv hne hvv

/-- C7 witness: the uniform-404 theorem applied to the claim's three invalid
identities — uppercase scope (with matching files present in the store),
underscored name, two-component version — and to a disallowed verb. -/
theorem c7_invalid_identity_not_found_witness :
    handle storeFooCaps "GET" ["Foo", "bar"] = (.notFound, storeFooCaps)
    ∧ handle storeBasic "GET" ["@a", "bar_one"] = (.notFound, storeBasic)
    ∧ handle storeBasic "GET" ["@a", "b", "1.2.tgz"] = (.notFound, storeBasic)
    ∧ handle storeBasic "PUT" ["@a", "b"] = (.notFound, storeBasic) :=
  ⟨c7_invalid_identity_not_found storeFooCaps "GET" ["Foo", "bar"]
      (Or.inr (Or.inl (by decide))),
   c7_invalid_identity_not_found storeBasic "GET" ["@a", "bar_one"]
      (Or.inr (Or.inr (Or.inl (by decide)))),
   c7_invalid_identity_not_found storeBasic "GET" ["@a", "b", "1.2.tgz"]
      (Or.inr (Or.inr (Or.inr ⟨"1.2.tgz", rfl, by decide, by decide⟩))),
   c7_invalid_identity_not_found storeBasic "PUT" ["@a", "b"]
      (Or.inl (by decide))⟩

/-- C8 counterexample: the claim says every path other than the two documented
shapes gets a 404, naming third segments with a non-`.tgz` extension and paths
of more than three segments.  With the package present, `GET
/@a/b/1.0.0.mjs` streams the archive, `GET /@a/b/1.0.0.tgz/junk` streams the
archive (the fourth segment is ignored), and `GET /@a/b/` (empty third
segment) returns the manifest — none of them is a 404. -/
theorem c8_counterexample_other_paths_served :
    servesArchive (handle storeBasic "GET" ["@a", "b", "1.0.0.mjs"]).1 = true
    ∧ servesArchive (handle storeBasic "GET" ["@a", "b", "1.0.0.tgz", "junk"]).1
        = true
    ∧ (handle storeBasic "GET" ["@a", "b", ""]).1
        = .manifestOk ["1.0.0"] "1.0.0" := by decide

/-- C8 amended: the handler reads only the first three decoded path segments
(extra segments are ignored, not rejected), and it uses the third segment only
through its extension-stripped stem, so any extension — not just `.tgz` — is
accepted; requests failing the method or validator checks (including missing
segments) are answered 404 with a plain-text body, as established separately
for the validators. -/
theorem c8_first_three_segments_and_any_extension :
    (∀ (st : Store) (method : String) (parts : List String),
      handle st method parts = handle st method (parts.take 3))
    ∧ (∀ (st : Store) (method s n rv rv' : String), ¬ rv = "" → ¬ rv' = "" →
        stripExt rv = stripExt rv' →
        handle st method [s, n, rv] = handle st method [s, n, rv']) :=
  ⟨handle_take_three,
   fun st method s n rv rv' h1 h2 h3 =>
     handle_ext_insensitive st method s n rv rv' h1 h2 h3⟩

/-- C8 witness: truncation applied to a five-segment request and extension
insensitivity applied to `.mjs` versus `.tgz` on the same stem. -/
theorem c8_first_three_segments_witness :
    handle storeBasic "GET" ["@a", "b", "1.0.0.tgz", "x", "y"]
      = handle storeBasic "GET" (["@a", "b", "1.0.0.tgz", "x", "y"].take 3)
    ∧ handle storeBasic "GET" ["@a", "b", "1.0.0.mjs"]
      = handle storeBasic "GET" ["@a", "b", "1.0.0.tgz"] :=
  ⟨c8_first_three_segments_and_any_extension.1 storeBasic "GET"
      ["@a", "b", "1.0.0.tgz", "x", "y"],
   c8_first_three_segments_and_any_extension.2 storeBasic "GET"
      "@a" "b" "1.0.0.mjs" "1.0.0.tgz" (by decide) (by decide) (by decide)⟩

/-- C6: on a cache miss with an existing, parseable source file, the handler
builds and persists an archive of exactly two entries — the descriptor at
`package/package.json` with name `scope/name`, the requested version, the
dependencies inferred from the source, and exports fixed to `./index.mjs`;
and the unmodified source text at `package/index.mjs` — and streams it. -/
theorem c6_cache_miss_two_entry_archive (st : Store) (scope name rv : String)
    (files : List FolderEntry) (src : Source) (imps : List String)
    (hs : validateScope scope = true) (hn : validatePackageName name = true)
    (hrv : ¬ rv = "") (hv : validateVersion (stripExt rv) = true)
    (hf : alookup st.data (scope, name) = some files)
    (hsrc : alookup files (stripExt rv ++ ".mjs") = some src)
    (hc : alookup st.cache (cacheKey scope name (stripExt rv)) = none)
    (hi : src.imports = some imps) :
    handle st "GET" [scope, name, rv]
      = (.archiveServed (cacheKey scope name (stripExt rv))
          [("package/package.json",
            .descriptor ⟨scope ++ "/" ++ name, stripExt rv,
              findDependencies imps, "./index.mjs"⟩),
           ("package/index.mjs", .file src.text)] true,
         { st with
             cache := (cacheKey scope name (stripExt rv),
               [("package/package.json",
                 .descriptor ⟨scope ++ "/" ++ name, stripExt rv,
                   findDependencies imps, "./index.mjs"⟩),
                ("package/index.mjs", .file src.text)]) :: st.cache }) := by
  rw [handle_three]
  exact routeCore_miss st scope name rv files src imps hs hn hrv hv hf hsrc hc hi

/-- C6 witness: the miss-path theorem evaluated on the one-package store. -/
theorem c6_cache_miss_two_entry_archive_witness :
    handle storeBasic "GET" ["@a", "b", "1.0.0.tgz"]
      = (.archiveServed "@a__b-1.0.0" builtEntries true, storeBasicCached) := by
  have h := c6_cache_miss_two_entry_archive storeBasic "@a" "b" "1.0.0.tgz"
    [("1.0.0.mjs", okSrc)] okSrc []
    (by decide) (by decide) (by decide) (by decide) rfl rfl rfl rfl
  exact h

/-- C4 counterexample: the claim says a request whose cache file exists is
streamed from the cache without re-checking the source file's existence.  In
the state where the cache file exists but the source was deleted, the request
is answered 404 — the handler consults the source file's existence before the
cache, so the cached archive is not streamed. -/
theorem c4_counterexample_source_existence_rechecked :
    handle storeCachedNoSource "GET" ["@a", "b", "1.0.0.tgz"]
      = (.notFound, storeCachedNoSource)
    ∧ alookup storeCachedNoSource.cache "@a__b-1.0.0"
        = some [("package/index.mjs", .file "x")] := by decide

/-- C4 amended: after any successful archive response the store still holds
the source file, and repeating the same request streams byte-identical cached
content with `built = false` — no source read, no dependency inference, no
rebuild; the handler does, however, re-check the source file's existence
first, and answers 404 instead when the source is gone. -/
theorem c4_repeat_request_streams_identical_cache (st st' : Store)
    (scope name rv : String) (k : String) (c : List (String × TarContent))
    (b : Bool)
    (h : handle st "GET" [scope, name, rv] = (.archiveServed k c b, st')) :
    handle st' "GET" [scope, name, rv] = (.archiveServed k c false, st') := by
  rw [handle_three] at h ⊢
  obtain ⟨hs, hn, hrv, hv, hk, files, src, hf, hsrc, hcase⟩ :=
    routeCore_archive_inv h
  subst hk
  rcases hcase with ⟨hc, hb, hst⟩ | ⟨hc, hb, hg, hst⟩
  · subst hst
    exact routeCore_hit _ scope name rv files src c hs hn hrv hv hf hsrc hc
  · subst hst
    refine routeCore_hit _ scope name rv files src c hs hn hrv hv ?_ ?_ ?_
    · exact hf
    · exact hsrc
    · exact alookup_cons_self _ _ _

/-- C4 witness: the first request on the one-package store builds the archive;
the repetition theorem then yields the second, identical, non-building
response. -/
theorem c4_repeat_request_witness :
    handle storeBasicCached "GET" ["@a", "b", "1.0.0.tgz"]
      = (.archiveServed "@a__b-1.0.0" builtEntries false, storeBasicCached) :=
  c4_repeat_request_streams_identical_cache storeBasic storeBasicCached
    "@a" "b" "1.0.0.tgz" "@a__b-1.0.0" builtEntries true (by decide)

/-- C5 counterexample: the claim equates the versions listed by the manifest
with the versions whose archive requests succeed, for every valid (scope,
name).  In the store where `@a/b` holds `1.0.0.mjs` and a stray `2.0.0.txt`,
the archive request for 1.0.0 succeeds, but the manifest request generates no
manifest at all: the stray stem 2.0.0 passes the version filter and `statSync`
on the missing `2.0.0.mjs` throws, so the two paths disagree on which versions
exist. -/
theorem c5_counterexample_manifest_crashes_while_archive_serves :
    servesArchive (handle storeJunk "GET" ["@a", "b", "1.0.0.tgz"]).1 = true
    ∧ (handle storeJunk "GET" ["@a", "b"]).1 = .crash .enoent := by decide

/-- C5 amended: whenever the manifest request actually produces a manifest,
the version set it lists is exactly the set of versions whose archive request
streams an archive — each listed version has its readable `<v>.mjs` source, and
every servable version is listed.  (When manifest generation fails — a stray
valid-stem file without its `.mjs`, or an unparseable sibling source — no
manifest exists even though some archive requests succeed.) -/
theorem c5_manifest_versions_agree_with_archive (st : Store)
    (scope name : String) (vs : List String) (latest : String)
    (h : (handle st "GET" [scope, name]).1 = .manifestOk vs latest)
    (v : String) :
    v ∈ vs
      ↔ servesArchive (handle st "GET" [scope, name, v ++ ".tgz"]).1 = true := by
  rw [handle_two] at h
  rcases hR : routeCore st "GET" (some scope) (some name) none with ⟨o, st2⟩
  rw [hR] at h
  have ho : o = .manifestOk vs latest := h
  subst ho
  obtain ⟨hs, hn, hst2, hgen⟩ := manifestOk_inv hR
  obtain ⟨files, hfol, hvs, hex, hpar⟩ := generateManifest_ok_inv hgen
  subst hvs
  rw [handle_three]
  constructor
  · intro hvmem
    have hvv : validateVersion v = true := (mem_manifestVersionList.mp hvmem).2
    have hvd : v.data ≠ [] := version_ne_nil hvv
    have hstrip : stripExt (v ++ ".tgz") = v := stripExt_tgz hvd
    have hne : ¬ (v ++ ".tgz") = "" := append_tgz_ne_empty v
    have hvv' : validateVersion (stripExt (v ++ ".tgz")) = true := by
      rw [hstrip]; exact hvv
    have hexv := List.all_eq_true.mp hex _ hvmem
    obtain ⟨src, hsrc⟩ := Option.isSome_iff_exists.mp hexv
    have hparv := List.all_eq_true.mp hpar _ hvmem
    rw [hsrc] at hparv
    have hpar2 : src.imports.isSome = true := hparv
    rw [routeCore_archive_eq st scope name (v ++ ".tgz") hs hn hne hvv',
      hstrip, hfol]
    cases hc : alookup st.cache (cacheKey scope name v) with
    | some content => simp [servesArchive, hc, hsrc]
    | none =>
      obtain ⟨imps, himps⟩ := Option.isSome_iff_exists.mp hpar2
      simp [servesArchive, hc, hsrc, generateTarFile, himps]
  · intro hserve
    rcases hR2 : routeCore st "GET" (some scope) (some name) (some (v ++ ".tgz"))
      with ⟨o2, stB⟩
    rw [hR2] at hserve
    have hserve2 : servesArchive o2 = true := hserve
    cases o2 with
    | notFound => simp [servesArchive] at hserve2
    | manifestOk a b => simp [servesArchive] at hserve2
    | crash e => simp [servesArchive] at hserve2
    | archiveServed k c b =>
      obtain ⟨hs2, hn2, hne2, hv2, hk2, files2, src2, hf2, hsrc2, _⟩ :=
        routeCore_archive_inv hR2
      rw [hfol] at hf2
      injection hf2 with hfe
      subst hfe
      by_cases hvd : v.data = []
      · exfalso
        have hvempty : v = "" := string_eq_of_data (by rw [hvd])
        rw [hvempty] at hv2
        have hcat : ("" ++ ".tgz" : String) = ".tgz" := by decide
        rw [hcat] at hv2
        exact absurd hv2 (by decide)
      · have hstrip : stripExt (v ++ ".tgz") = v := stripExt_tgz hvd
        rw [hstrip] at hv2 hsrc2
        refine mem_manifestVersionList.mpr
          ⟨⟨(v ++ ".mjs", src2), alookup_some_mem _ _ _ hsrc2, ?_⟩, hv2⟩
        exact stripExt_mjs hvd

/-- C5 witness: the agreement theorem evaluated on the one-package store,
whose manifest lists exactly the version 1.0.0. -/
theorem c5_manifest_versions_agree_witness :
    ("1.0.0" : String) ∈ ["1.0.0"]
      ↔ servesArchive
          (handle storeBasic "GET" ["@a", "b", "1.0.0" ++ ".tgz"]).1 = true :=
  c5_manifest_versions_agree_with_archive storeBasic "@a" "b" ["1.0.0"] "1.0.0"
    (by decide) "1.0.0"

end NpmRegistry
